import Mathlib

/-!
Shallow embedding of the hivex node/key-tree traversal engine
(`lib/node.c` of rapid7/hivex) together with the spec-modelled
collaborators it depends on (the Hive Store oracles and the offset-list
accumulator, whose sources are outside `src/`).

The hive image is modelled abstractly through the Hive Store interface:
validity/length/signature oracles plus little-endian field readers for
the record shapes (`nk`, `lf`/`lh`, `ri`).  Machine widths are made
explicit with `% 2^w` at every field read, exactly where the C code
performs `le16toh` / `le32toh` / `le64toh`.  Fallible C functions that
return a sentinel and set `errno` are modelled as `Except HErrno α`.
-/

/-- The errno values `lib/node.c` reports through `SET_ERRNO`. -/
inductive HErrno where
  | EINVAL        -- invalid argument (not a valid 'nk' block, ...)
  | EFAULT        -- structural fault (bad offset, name too long, ...)
  | ENOTSUP       -- unsupported structure / count mismatch
  | ERANGE        -- resource limit exceeded
  | HIVEX_NO_KEY  -- no root key
  deriving DecidableEq, Repr

/-- Modelled from the spec: the fixed ceiling `HIVEX_MAX_SUBKEYS`
(defined in `hivex-internal.h`, which is not under `src/`): "Both the
declared `nr_subkeys` and the number of intermediate blocks visited are
capped by a fixed ceiling (`HIVEX_MAX_SUBKEYS`)". -/
def HIVEX_MAX_SUBKEYS : Nat := 1000000

/-- Modelled from the spec: `sizeof (struct ntreg_nk_record)`, the fixed
size of the key-record header including the first name byte (the struct
is declared in `hivex-internal.h`, which is not under `src/`); the spec
calls it `header_size`.  Only `1 ≤ nk_record_size` matters to the code. -/
def nk_record_size : Nat := 80

/-- Modelled from the spec: the Hive Store collaborator (§6) owning the
mapped buffer, plus the raw little-endian field readers for the on-disk
record shapes.  Field readers are unconstrained `Nat`-valued functions;
the machine width of each field is imposed with `% 2^w` at the read
site, mirroring `le16toh`/`le32toh`/`le64toh` in the C code. -/
structure Hive where
  /-- `IS_VALID_BLOCK (h, offset)` oracle. -/
  validBlock : Nat → Bool
  /-- the two signature bytes `block->id[0]`, `block->id[1]` at an offset. -/
  blockId : Nat → Nat × Nat
  /-- `block_len (h, offset, ...)`: the block's declared segment length. -/
  blockLen : Nat → Nat
  /-- `nk->name_len` (raw, 16-bit on disk). -/
  nk_name_len : Nat → Nat
  /-- `nk->name[i]`: byte `i` of the name. -/
  nk_name : Nat → Nat → Nat
  /-- `nk->timestamp` (raw, 64-bit on disk). -/
  nk_timestamp : Nat → Nat
  /-- `nk->parent` (raw, 32-bit on disk). -/
  nk_parent : Nat → Nat
  /-- `nk->subkey_lf` (raw, 32-bit on disk). -/
  nk_subkey_lf : Nat → Nat
  /-- `nk->nr_subkeys` (raw, 32-bit on disk). -/
  nk_nr_subkeys : Nat → Nat
  /-- `lf->nr_keys` (raw, 16-bit on disk). -/
  lf_nr_keys : Nat → Nat
  /-- `lf->keys[i].offset` (raw, 32-bit on disk). -/
  lf_key_offset : Nat → Nat → Nat
  /-- `ri->nr_offsets` (raw, 16-bit on disk). -/
  ri_nr_offsets : Nat → Nat
  /-- `ri->offset[i]` (raw, 32-bit on disk). -/
  ri_offset : Nat → Nat → Nat
  /-- `h->rootoffs`. -/
  rootoffs : Nat
  /-- `h->last_modified` (already decoded to a signed 64-bit value). -/
  last_modified : Int

/-- First signature byte at an offset, as a byte. -/
def block_id0 (h : Hive) (off : Nat) : Nat := (h.blockId off).1 % 256

/-- Second signature byte at an offset, as a byte. -/
def block_id1 (h : Hive) (off : Nat) : Nat := (h.blockId off).2 % 256

/-- `BLOCK_ID_EQ (h, off, "nk")`: `'n' = 110`, `'k' = 107`. -/
def isNkBlock (h : Hive) (off : Nat) : Bool :=
  block_id0 h off == 110 && block_id1 h off == 107

/-- The guard `IS_VALID_BLOCK (h, node) && BLOCK_ID_EQ (h, node, "nk")`
shared by all node accessors. -/
def validNk (h : Hive) (off : Nat) : Bool :=
  h.validBlock off && isNkBlock h off

/-- Modelled from the spec: the offset-list accumulator (§4.2), whose
source `offset-list.c` is not under `src/`: an ordered sequence of
offsets with an optional maximum-length ceiling; adding beyond the
ceiling is a `ResourceLimitExceeded` (`ERANGE`) error, and finalization
appends a trailing zero sentinel. -/
structure OffsetList where
  limit : Option Nat
  list : List Nat
  deriving DecidableEq, Repr

/-- `_hivex_init_offset_list`: empty, unlimited. -/
def initOffsetList : OffsetList := ⟨none, []⟩

/-- `_hivex_set_offset_list_limit`. -/
def setOffsetListLimit (l : OffsetList) (n : Nat) : OffsetList :=
  { l with limit := some n }

/-- `_hivex_add_to_offset_list`: appends, failing with `ERANGE` once the
ceiling would be exceeded. -/
def addToOffsetList (l : OffsetList) (off : Nat) : Except HErrno OffsetList :=
  match l.limit with
  | some m =>
      if l.list.length + 1 > m then .error .ERANGE
      else .ok { l with list := l.list ++ [off] }
  | none => .ok { l with list := l.list ++ [off] }

/-- `_hivex_get_offset_list_length`. -/
def offsetListLength (l : OffsetList) : Nat := l.list.length

/-- `_hivex_return_offset_list`: finalizes into a sequence terminated by
a trailing zero sentinel. -/
def returnOffsetList (l : OffsetList) : List Nat := l.list ++ [0]

/-- `hivex_root`. -/
def hivex_root (h : Hive) : Except HErrno Nat :=
  if h.validBlock h.rootoffs then .ok h.rootoffs
  else .error .HIVEX_NO_KEY

/-- `hivex_node_struct_length`: `name_len + sizeof (struct
ntreg_nk_record) - 1`, checked against the block's segment length. -/
def hivex_node_struct_length (h : Hive) (node : Nat) : Except HErrno Nat :=
  if ¬ validNk h node then .error .EINVAL
  else
    let name_len := h.nk_name_len node % 2 ^ 16
    let ret := name_len + nk_record_size - 1
    let seg_len := h.blockLen node
    if ret > seg_len then .error .EFAULT
    else .ok ret

/-- `hivex_node_name`: returns the `name_len` raw name bytes after
checking `sizeof (struct ntreg_nk_record) + len - 1` against the block's
segment length. -/
def hivex_node_name (h : Hive) (node : Nat) : Except HErrno (List Nat) :=
  if ¬ validNk h node then .error .EINVAL
  else
    let len := h.nk_name_len node % 2 ^ 16
    let seg_len := h.blockLen node
    if nk_record_size + len - 1 > seg_len then .error .EFAULT
    else .ok ((List.range len).map (fun i => h.nk_name node i % 256))

/-- Reinterpret a raw 64-bit value as a signed two's-complement
`int64_t`, as the assignment `ret = le64toh (nk->timestamp)` does. -/
def decode_int64 (n : Nat) : Int :=
  if n % 2 ^ 64 < 2 ^ 63 then (n % 2 ^ 64 : Int)
  else (n % 2 ^ 64 : Int) - 2 ^ 64

/-- `timestamp_check`: a negative timestamp is an `EINVAL` error. -/
def timestamp_check (timestamp : Int) : Except HErrno Int :=
  if timestamp < 0 then .error .EINVAL
  else .ok timestamp

/-- `hivex_last_modified`. -/
def hivex_last_modified (h : Hive) : Except HErrno Int :=
  timestamp_check h.last_modified

/-- `hivex_node_timestamp`. -/
def hivex_node_timestamp (h : Hive) (node : Nat) : Except HErrno Int :=
  if ¬ validNk h node then .error .EINVAL
  else timestamp_check (decode_int64 (h.nk_timestamp node))

/-- `hivex_node_parent`: decode `nk->parent`, apply the `0x1000` bias,
re-validate. -/
def hivex_node_parent (h : Hive) (node : Nat) : Except HErrno Nat :=
  if ¬ validNk h node then .error .EINVAL
  else
    let ret := h.nk_parent node % 2 ^ 32 + 0x1000
    if ¬ h.validBlock ret then .error .EFAULT
    else .ok ret

/-- `check_child_is_nk_block`: bypassed when the
`GET_CHILDREN_NO_CHECK_NK` flag is set (modelled as the `noCheckNk`
boolean, the only flag bit `node.c` consults). -/
def check_child_is_nk_block (h : Hive) (child : Nat) (noCheckNk : Bool) :
    Except HErrno Unit :=
  if noCheckNk then .ok ()
  else if ¬ h.validBlock child then .error .EFAULT
  else if ¬ isNkBlock h child then .error .EFAULT
  else .ok ()

/-- The `for (i = 0; i < nr_subkeys_in_lf; ++i)` loop of `_get_children`
in the `lf`/`lh` case: bias each `lf->keys[i].offset`, check it is an
`nk` block, append it to `children`. -/
def lf_loop (h : Hive) (noCheckNk : Bool) (blkoff : Nat) :
    List Nat → OffsetList → Except HErrno OffsetList
  | [], children => .ok children
  | i :: rest, children =>
    match check_child_is_nk_block h
        (h.lf_key_offset blkoff i % 2 ^ 32 + 0x1000) noCheckNk with
    | .error e => .error e
    | .ok _ =>
      match addToOffsetList children
          (h.lf_key_offset blkoff i % 2 ^ 32 + 0x1000) with
      | .error e => .error e
      | .ok children => lf_loop h noCheckNk blkoff rest children

/-- The `for (i = 0; i < nr_offsets; ++i)` loop of `_get_children` in
the `ri` case: bias each `ri->offset[i]`, check validity, recurse (the
recursive call is passed in as `rec`). -/
def ri_loop (h : Hive) (blkoff : Nat)
    (rec : Nat → OffsetList → OffsetList →
      Except HErrno (OffsetList × OffsetList)) :
    List Nat → OffsetList → OffsetList →
      Except HErrno (OffsetList × OffsetList)
  | [], children, blocks => .ok (children, blocks)
  | i :: rest, children, blocks =>
    if ¬ h.validBlock (h.ri_offset blkoff i % 2 ^ 32 + 0x1000) then
      .error .EFAULT
    else
      match rec (h.ri_offset blkoff i % 2 ^ 32 + 0x1000) children blocks with
      | .error e => .error e
      | .ok (children, blocks) => ri_loop h blkoff rec rest children blocks

/-- `_get_children`: recursive descent over one intermediate block.
The C recursion has no structural variant, but it cannot run for more
than `HIVEX_MAX_SUBKEYS + 1` nested calls because every call first adds
its block offset to the limited `blocks` list; the `fuel` parameter is
the modelling artifact making that termination explicit.  Running out of
fuel is modelled as an `EFAULT` error (unreachable whenever
`fuel > blocks.limit`). -/
def _get_children (h : Hive) (noCheckNk : Bool) :
    Nat → Nat → OffsetList → OffsetList →
      Except HErrno (OffsetList × OffsetList)
  | 0, _, _, _ => .error .EFAULT
  | fuel + 1, blkoff, children, blocks =>
    match addToOffsetList blocks blkoff with
    | .error e => .error e
    | .ok blocks =>
      -- 'l' = 108, 'f' = 102, 'h' = 104
      if block_id0 h blkoff = 108 ∧
          (block_id1 h blkoff = 102 ∨ block_id1 h blkoff = 104) then
        if 8 + (h.lf_nr_keys blkoff % 2 ^ 16) * 8 > h.blockLen blkoff then
          .error .EFAULT
        else
          match lf_loop h noCheckNk blkoff
              (List.range (h.lf_nr_keys blkoff % 2 ^ 16)) children with
          | .error e => .error e
          | .ok children => .ok (children, blocks)
      -- 'r' = 114, 'i' = 105
      else if block_id0 h blkoff = 114 ∧ block_id1 h blkoff = 105 then
        if 8 + (h.ri_nr_offsets blkoff % 2 ^ 16) * 4 > h.blockLen blkoff then
          .error .EFAULT
        else
          ri_loop h blkoff
            (fun off ch bl => _get_children h noCheckNk fuel off ch bl)
            (List.range (h.ri_nr_offsets blkoff % 2 ^ 16)) children blocks
      else .error .ENOTSUP

/-- `_hivex_get_children` with the fuel of the inner recursion made
explicit (see `_get_children`). -/
def _hivex_get_children (h : Hive) (node : Nat) (noCheckNk : Bool)
    (fuel : Nat) : Except HErrno (List Nat × List Nat) :=
  if ¬ validNk h node then .error .EINVAL
  else if h.nk_nr_subkeys node % 2 ^ 32 = 0 then
    .ok (returnOffsetList initOffsetList, returnOffsetList initOffsetList)
  else if h.nk_nr_subkeys node % 2 ^ 32 > HIVEX_MAX_SUBKEYS then
    .error .ERANGE
  else if ¬ h.validBlock (h.nk_subkey_lf node % 2 ^ 32 + 0x1000) then
    .error .EFAULT
  else
    match _get_children h noCheckNk fuel
        (h.nk_subkey_lf node % 2 ^ 32 + 0x1000)
        (setOffsetListLimit initOffsetList (h.nk_nr_subkeys node % 2 ^ 32))
        (setOffsetListLimit initOffsetList HIVEX_MAX_SUBKEYS) with
    | .error e => .error e
    | .ok (children, blocks) =>
      if h.nk_nr_subkeys node % 2 ^ 32 ≠ offsetListLength children then
        .error .ENOTSUP
      else .ok (returnOffsetList children, returnOffsetList blocks)

/-- Enough fuel for `_get_children` to always hit the `blocks` ceiling
before running out: the limit is `HIVEX_MAX_SUBKEYS`. -/
def defaultFuel : Nat := HIVEX_MAX_SUBKEYS + 2

/-- `hivex_node_children`: keep the children, free the blocks. -/
def hivex_node_children (h : Hive) (node : Nat) : Option (List Nat) :=
  match _hivex_get_children h node false defaultFuel with
  | .error _ => none
  | .ok (children, _blocks) => some children

/-- Modelled from the spec: ASCII lower-casing of one byte, as done by
the `c-ctype` helpers used by `STRCASEEQ` (gnulib, not under `src/`). -/
def c_tolower (b : Nat) : Nat :=
  if 65 ≤ b ∧ b ≤ 90 then b + 32 else b

/-- The C string denoted by a byte list: the bytes up to the first nul. -/
def cstring (l : List Nat) : List Nat := l.takeWhile (fun b => b ≠ 0)

/-- Modelled from the spec: `STRCASEEQ` — "linear case-insensitive scan
comparing each child's decoded name to `name`" — i.e. ASCII
case-insensitive equality of nul-terminated strings. -/
def strcaseeq (a b : List Nat) : Bool :=
  (cstring a).map c_tolower == (cstring b).map c_tolower

/-- The scan loop of `hivex_node_get_child`: walk the zero-terminated
children array, stop at the sentinel, return the first child whose
decoded name matches case-insensitively; a name-decoding failure aborts
with the zero handle. -/
def get_child_loop (h : Hive) (nname : List Nat) : List Nat → Nat
  | [] => 0
  | c :: rest =>
    if c = 0 then 0
    else
      match hivex_node_name h c with
      | .error _ => 0
      | .ok name =>
        if strcaseeq name nname then c else get_child_loop h nname rest

/-- `hivex_node_get_child`. -/
def hivex_node_get_child (h : Hive) (node : Nat) (nname : List Nat) : Nat :=
  match hivex_node_children h node with
  | none => 0
  | some children => get_child_loop h nname children

/-- The name bytes "Software". -/
def softwareName : List Nat := [83, 111, 102, 116, 119, 97, 114, 101]

/-- The name bytes "SOFTWARE". -/
def softwareUpper : List Nat := [83, 79, 70, 84, 87, 65, 82, 69]

/-- A small well-formed fixture hive: an `nk` node at `0x2000` with one
subkey reachable through an `lf` block at `0x3000`; the child `nk` at
`0x4000` is named "Software", has timestamp `0` and its parent field
points back to `0x2000`; a second `nk` at `0x5000` declares zero
subkeys and a garbage `subkey_lf`. -/
def hiveG : Hive where
  validBlock := fun off =>
    off = 0x2000 || off = 0x3000 || off = 0x4000 || off = 0x5000
  blockId := fun off => if off = 0x3000 then (108, 102) else (110, 107)
  blockLen := fun _ => 0x1000
  nk_name_len := fun _ => 8
  nk_name := fun _ i => softwareName.getD i 0
  nk_timestamp := fun _ => 0
  nk_parent := fun _ => 0x1000
  nk_subkey_lf := fun off => if off = 0x5000 then 0xdead0000 else 0x2000
  nk_nr_subkeys := fun off => if off = 0x2000 then 1 else 0
  lf_nr_keys := fun _ => 1
  lf_key_offset := fun _ _ => 0x3000
  ri_nr_offsets := fun _ => 0
  ri_offset := fun _ _ => 0
  rootoffs := 0x2000
  last_modified := 0

/-- `hiveG` corrupted so that the node at `0x2000` declares 2 subkeys
while its `lf` block still holds only 1. -/
def hiveM : Hive :=
  { hiveG with nk_nr_subkeys := fun off => if off = 0x2000 then 2 else 0 }

/-- `hiveG` corrupted so that the node at `0x2000` declares
`HIVEX_MAX_SUBKEYS + 1` subkeys. -/
def hiveR : Hive :=
  { hiveG with
    nk_nr_subkeys := fun off =>
      if off = 0x2000 then HIVEX_MAX_SUBKEYS + 1 else 0 }

/-- `hiveG` corrupted so that every node's `name_len` field (5000)
overruns the declared segment length (4096). -/
def hiveN : Hive := { hiveG with nk_name_len := fun _ => 5000 }

/-- `hiveG` with the child's on-disk parent backlink corrupted to point
at the unrelated (but valid) `nk` block `0x5000` instead of `0x2000`. -/
def hiveB : Hive :=
  { hiveG with
    nk_parent := fun off => if off = 0x4000 then 0x4000 else 0x1000 }

/-- Parametric two-level fixture (claim family): node `0x2000` whose
subkey structure is an `ri` block at `0x3000` fanning out to the two
`lf` blocks at `0x4000` (stored child offsets `l1`) and `0x5000`
(stored child offsets `l2`); every other offset is a valid `nk`
block. -/
def riHive (l1 l2 : List Nat) : Hive where
  validBlock := fun _ => true
  blockId := fun off =>
    if off = 0x3000 then (114, 105)
    else if off = 0x4000 ∨ off = 0x5000 then (108, 102)
    else (110, 107)
  blockLen := fun _ => 2 ^ 32
  nk_name_len := fun _ => 0
  nk_name := fun _ _ => 0
  nk_timestamp := fun _ => 0
  nk_parent := fun _ => 0x1000
  nk_subkey_lf := fun _ => 0x2000
  nk_nr_subkeys := fun off => if off = 0x2000 then l1.length + l2.length else 0
  lf_nr_keys := fun off => if off = 0x4000 then l1.length else l2.length
  lf_key_offset := fun off i => if off = 0x4000 then l1.getD i 0 else l2.getD i 0
  ri_nr_offsets := fun _ => 2
  ri_offset := fun _ i => if i = 0 then 0x3000 else 0x4000
  rootoffs := 0x2000
  last_modified := 0

/-- Parametric flat fixture: node `0x2000` whose subkey structure is a
single `lf` block at `0x3000` holding the stored child offsets `l`;
every other offset is a valid `nk` block. -/
def flatHive (l : List Nat) : Hive where
  validBlock := fun _ => true
  blockId := fun off => if off = 0x3000 then (108, 102) else (110, 107)
  blockLen := fun _ => 2 ^ 32
  nk_name_len := fun _ => 0
  nk_name := fun _ _ => 0
  nk_timestamp := fun _ => 0
  nk_parent := fun _ => 0x1000
  nk_subkey_lf := fun _ => 0x2000
  nk_nr_subkeys := fun off => if off = 0x2000 then l.length else 0
  lf_nr_keys := fun _ => l.length
  lf_key_offset := fun _ i => l.getD i 0
  ri_nr_offsets := fun _ => 0
  ri_offset := fun _ _ => 0
  rootoffs := 0x2000
  last_modified := 0

/-! ## Theorems -/

/-- **C4**: for every valid `nk` node whose `name_len` is such that the
record header size plus `name_len` minus one (the overlap convention)
exceeds the block's declared segment length, both `hivex_node_name` and
`hivex_node_struct_length` fail with the structural fault `EFAULT`
instead of reading past the block. -/
theorem name_too_long_fails (h : Hive) (node : Nat)
    (hnk : validNk h node = true)
    (hlen : nk_record_size + h.nk_name_len node % 2 ^ 16 - 1 > h.blockLen node) :
    hivex_node_name h node = .error .EFAULT ∧
    hivex_node_struct_length h node = .error .EFAULT := by
  have hlen' : h.nk_name_len node % 2 ^ 16 + nk_record_size - 1 > h.blockLen node := by
    have : 1 ≤ nk_record_size := by decide
    omega
  constructor
  · unfold hivex_node_name
    simp [hnk]
    omega
  · unfold hivex_node_struct_length
    simp [hnk]
    omega

/-- Witness for `name_too_long_fails`: in `hiveN` the node at `0x2000`
declares `name_len = 5000` against a segment length of 4096. -/
theorem name_too_long_fails_witness :
    validNk hiveN 0x2000 = true ∧
    nk_record_size + hiveN.nk_name_len 0x2000 % 2 ^ 16 - 1 > hiveN.blockLen 0x2000 ∧
    hivex_node_name hiveN 0x2000 = .error .EFAULT ∧
    hivex_node_struct_length hiveN 0x2000 = .error .EFAULT :=
  ⟨by decide, by decide,
   name_too_long_fails hiveN 0x2000 (by decide) (by decide)⟩

/-- **C5**: for every valid `nk` node, `hivex_node_timestamp` (and
likewise the hive-global `hivex_last_modified`) fails with the
invalid-timestamp fault `EINVAL` exactly when the decoded 64-bit value
is negative, succeeds with the decoded value otherwise (in particular a
decoded `0` succeeds and returns `0`), and a successful result is never
negative. -/
theorem timestamp_nonnegative_spec (h : Hive) (node : Nat)
    (hnk : validNk h node = true) :
    (hivex_node_timestamp h node = .error .EINVAL ↔
      decode_int64 (h.nk_timestamp node) < 0) ∧
    (0 ≤ decode_int64 (h.nk_timestamp node) →
      hivex_node_timestamp h node = .ok (decode_int64 (h.nk_timestamp node))) ∧
    (∀ t, hivex_node_timestamp h node = .ok t → 0 ≤ t) ∧
    (hivex_last_modified h = .error .EINVAL ↔ h.last_modified < 0) ∧
    (0 ≤ h.last_modified → hivex_last_modified h = .ok h.last_modified) ∧
    (∀ t, hivex_last_modified h = .ok t → 0 ≤ t) := by
  have main : ∀ t : Int, (timestamp_check t = .error .EINVAL ↔ t < 0) ∧
      (0 ≤ t → timestamp_check t = .ok t) ∧
      (∀ u, timestamp_check t = .ok u → 0 ≤ u) := by
    intro t
    unfold timestamp_check
    split_ifs with hit
    · exact ⟨by simp [hit], fun hge => by omega, fun u hu => by simp at hu⟩
    · exact ⟨by simp [hit], fun _ => rfl,
        fun u hu => by
          simp only [Except.ok.injEq] at hu
          omega⟩
  have hguard : hivex_node_timestamp h node =
      timestamp_check (decode_int64 (h.nk_timestamp node)) := by
    unfold hivex_node_timestamp
    simp [hnk]
  rw [hguard]
  unfold hivex_last_modified
  exact ⟨(main _).1, (main _).2.1, (main _).2.2,
    (main _).1, (main _).2.1, (main _).2.2⟩

/-- Witness for `timestamp_nonnegative_spec`: the child node of `hiveG`
has a raw timestamp of `0`, which decodes to `0` and succeeds. -/
theorem timestamp_nonnegative_spec_witness :
    validNk hiveG 0x4000 = true ∧
    0 ≤ decode_int64 (hiveG.nk_timestamp 0x4000) ∧
    hivex_node_timestamp hiveG 0x4000 = .ok 0 := by
  refine ⟨by decide, by decide, ?_⟩
  have h := (timestamp_nonnegative_spec hiveG 0x4000 (by decide)).2.1 (by decide)
  rw [show decode_int64 (hiveG.nk_timestamp 0x4000) = (0 : Int) by decide] at h
  exact h

/-- **C7**: for every valid `nk` node declaring zero subkeys,
`_hivex_get_children` succeeds immediately with two empty
(sentinel-only) lists, for every fuel (even `0`) and regardless of the
node's `subkey_lf` field — the pointer is neither resolved nor
validated. -/
theorem no_subkeys_fast_path (h : Hive) (node : Nat) (noCheckNk : Bool)
    (fuel : Nat)
    (hnk : validNk h node = true)
    (hzero : h.nk_nr_subkeys node % 2 ^ 32 = 0) :
    _hivex_get_children h node noCheckNk fuel = .ok ([0], [0]) := by
  unfold _hivex_get_children
  simp [hnk, hzero, returnOffsetList, initOffsetList]
  intro hn
  exact absurd hzero hn

/-- Witness for `no_subkeys_fast_path`: the node at `0x5000` of `hiveG`
declares zero subkeys and a garbage `subkey_lf` (`0xdead0000`, not a
valid block), and still succeeds with fuel `0`. -/
theorem no_subkeys_fast_path_witness :
    validNk hiveG 0x5000 = true ∧
    hiveG.nk_nr_subkeys 0x5000 % 2 ^ 32 = 0 ∧
    hiveG.validBlock (hiveG.nk_subkey_lf 0x5000 % 2 ^ 32 + 0x1000) = false ∧
    _hivex_get_children hiveG 0x5000 false 0 = .ok ([0], [0]) :=
  ⟨by decide, by decide, by decide,
   no_subkeys_fast_path hiveG 0x5000 false 0 (by decide) (by decide)⟩

/-- The scan loop of `hivex_node_get_child` treats two lookup names the
same whenever their lower-cased C strings agree. -/
theorem get_child_loop_congr (h : Hive) (n1 n2 : List Nat)
    (hcase : (cstring n1).map c_tolower = (cstring n2).map c_tolower) :
    ∀ cs, get_child_loop h n1 cs = get_child_loop h n2 cs := by
  intro cs
  induction cs with
  | nil => rfl
  | cons c rest ih =>
    unfold get_child_loop
    by_cases hc : c = 0
    · simp [hc]
    · rw [if_neg hc, if_neg hc]
      cases hname : hivex_node_name h c with
      | error e => rfl
      | ok name =>
        have hsame : strcaseeq name n1 = strcaseeq name n2 := by
          unfold strcaseeq
          rw [hcase]
        show (if strcaseeq name n1 = true then c else get_child_loop h n1 rest) =
          (if strcaseeq name n2 = true then c else get_child_loop h n2 rest)
        rw [hsame]
        cases hsc : strcaseeq name n2 with
        | true => simp
        | false => simpa using ih

/-- **C6**: `hivex_node_get_child` enumerates the children via the
walker and scans their decoded names case-insensitively, returning the
zero handle when enumeration fails; consequently two lookup names whose
ASCII-lower-cased C strings agree (such as "Software" and "SOFTWARE")
always return the identical handle. -/
theorem get_child_case_insensitive (h : Hive) (node : Nat) (n1 n2 : List Nat)
    (hcase : (cstring n1).map c_tolower = (cstring n2).map c_tolower) :
    (hivex_node_children h node = none → hivex_node_get_child h node n1 = 0) ∧
    hivex_node_get_child h node n1 = hivex_node_get_child h node n2 := by
  unfold hivex_node_get_child
  constructor
  · intro hnone
    rw [hnone]
  · cases hcs : hivex_node_children h node with
    | none => rfl
    | some cs => exact get_child_loop_congr h n1 n2 hcase cs

/-- Witness for `get_child_case_insensitive`: on `hiveG`, looking up
"Software" and "SOFTWARE" under the node at `0x2000` returns the same
handle, namely the child `0x4000`. -/
theorem get_child_case_insensitive_witness :
    (cstring softwareName).map c_tolower =
      (cstring softwareUpper).map c_tolower ∧
    hivex_node_get_child hiveG 0x2000 softwareName =
      hivex_node_get_child hiveG 0x2000 softwareUpper ∧
    hivex_node_get_child hiveG 0x2000 softwareName = 0x4000 :=
  ⟨by decide,
   (get_child_case_insensitive hiveG 0x2000 softwareName softwareUpper
     (by decide)).2,
   by decide⟩

/-- **C1**: for every valid `nk` node on which `_hivex_get_children` is
invoked and whose recursion completes (returning lists `ch`, `bl`), if
the number of children discovered differs from the declared
`nr_subkeys` in either direction, the operation fails (the errno at
this site is `ENOTSUP`, which the spec's taxonomy classifies as the
structural "declared vs. actual subkey count mismatch" fault) and no
lists are returned. -/
theorem subkey_count_mismatch_fails (h : Hive) (node : Nat) (noCheckNk : Bool)
    (fuel : Nat) (ch bl : OffsetList)
    (hnk : validNk h node = true)
    (hnz : ¬ h.nk_nr_subkeys node % 2 ^ 32 = 0)
    (hmax : h.nk_nr_subkeys node % 2 ^ 32 ≤ HIVEX_MAX_SUBKEYS)
    (hlf : h.validBlock (h.nk_subkey_lf node % 2 ^ 32 + 0x1000) = true)
    (hrec : _get_children h noCheckNk fuel
        (h.nk_subkey_lf node % 2 ^ 32 + 0x1000)
        (setOffsetListLimit initOffsetList (h.nk_nr_subkeys node % 2 ^ 32))
        (setOffsetListLimit initOffsetList HIVEX_MAX_SUBKEYS) = .ok (ch, bl))
    (hne : ¬ h.nk_nr_subkeys node % 2 ^ 32 = offsetListLength ch) :
    _hivex_get_children h node noCheckNk fuel = .error .ENOTSUP := by
  have hgt : ¬ HIVEX_MAX_SUBKEYS < h.nk_nr_subkeys node % 2 ^ 32 := by omega
  unfold _hivex_get_children
  rw [hnk]
  simp only [not_true_eq_false, if_false, Bool.false_eq_true]
  rw [if_neg hnz, if_neg hgt, hlf]
  simp only [not_true_eq_false, if_false, Bool.true_eq_false, hrec]
  rw [if_pos hne]

/-- Witness for `subkey_count_mismatch_fails`: in `hiveM` the node at
`0x2000` declares 2 subkeys but only 1 child is discovered. -/
theorem subkey_count_mismatch_fails_witness :
    _get_children hiveM false 5 0x3000
      (setOffsetListLimit initOffsetList 2)
      (setOffsetListLimit initOffsetList HIVEX_MAX_SUBKEYS) =
      .ok (⟨some 2, [0x4000]⟩, ⟨some HIVEX_MAX_SUBKEYS, [0x3000]⟩) ∧
    _hivex_get_children hiveM 0x2000 false 5 = .error .ENOTSUP := by
  constructor
  · rfl
  · exact subkey_count_mismatch_fails hiveM 0x2000 false 5
      ⟨some 2, [0x4000]⟩ ⟨some HIVEX_MAX_SUBKEYS, [0x3000]⟩
      (by decide) (by decide) (by decide) (by decide) (by rfl) (by decide)

/-- **C3**: `_hivex_get_children` is all-or-nothing: every invocation
either fails, in which case the caller receives only the failure
indication and no (partial) lists, or succeeds with a complete result —
a sentinel-terminated children list holding exactly the declared number
of subkeys.  Partially built accumulators are never returned. -/
theorem get_children_all_or_nothing (h : Hive) (node : Nat)
    (noCheckNk : Bool) (fuel : Nat) :
    (∃ e, _hivex_get_children h node noCheckNk fuel = .error e) ∨
    (∃ c' b', _hivex_get_children h node noCheckNk fuel =
        .ok (c' ++ [0], b' ++ [0]) ∧
      c'.length = h.nk_nr_subkeys node % 2 ^ 32) := by
  unfold _hivex_get_children
  by_cases h1 : validNk h node = true
  · rw [h1]
    simp only [not_true_eq_false, if_false, Bool.false_eq_true]
    by_cases h2 : h.nk_nr_subkeys node % 2 ^ 32 = 0
    · rw [if_pos h2]
      right
      exact ⟨[], [], rfl, by simp only [List.length_nil]; omega⟩
    · rw [if_neg h2]
      by_cases h3 : HIVEX_MAX_SUBKEYS < h.nk_nr_subkeys node % 2 ^ 32
      · rw [if_pos h3]
        left
        exact ⟨_, rfl⟩
      · rw [if_neg h3]
        by_cases h4 : h.validBlock (h.nk_subkey_lf node % 2 ^ 32 + 0x1000) = true
        · rw [h4]
          simp only [not_true_eq_false, if_false, Bool.true_eq_false]
          split
          next e heq =>
            left
            exact ⟨e, rfl⟩
          next ch bl heq =>
            split
            next h5 =>
              left
              exact ⟨_, rfl⟩
            next h5 =>
              right
              refine ⟨ch.list, bl.list, rfl, ?_⟩
              simp only [offsetListLength] at h5
              omega
        · rw [if_pos h4]
          left
          exact ⟨_, rfl⟩
  · rw [if_pos h1]
    left
    exact ⟨_, rfl⟩

/-- Inversion of a successful `addToOffsetList`: the limit is kept, the
offset is appended, and a set ceiling is respected. -/
theorem addToOffsetList_ok (l : OffsetList) (off : Nat) (l' : OffsetList)
    (hok : addToOffsetList l off = .ok l') :
    l'.limit = l.limit ∧ l'.list = l.list ++ [off] ∧
    (∀ M, l.limit = some M → l'.list.length ≤ M) := by
  unfold addToOffsetList at hok
  split at hok
  next m hm =>
    split at hok
    next => exact absurd hok (by simp)
    next hgt =>
      cases hok
      refine ⟨rfl, rfl, ?_⟩
      intro M hM
      rw [hm] at hM
      cases hM
      simp only [List.length_append, List.length_cons, List.length_nil]
      omega
  next hm =>
    cases hok
    exact ⟨rfl, rfl, fun M hM => by rw [hm] at hM; cases hM⟩

/-- A successful `ri_loop` pass keeps the blocks accumulator within its
ceiling, provided the recursive calls do. -/
theorem ri_loop_blocks_le (h : Hive) (blkoff : Nat)
    (rec : Nat → OffsetList → OffsetList →
      Except HErrno (OffsetList × OffsetList)) (M : Nat)
    (hrec : ∀ off ch bl ch' bl', bl.limit = some M →
      rec off ch bl = .ok (ch', bl') →
      bl'.limit = some M ∧ bl'.list.length ≤ M) :
    ∀ idxs children blocks ch' bl',
      blocks.limit = some M → blocks.list.length ≤ M →
      ri_loop h blkoff rec idxs children blocks = .ok (ch', bl') →
      bl'.limit = some M ∧ bl'.list.length ≤ M := by
  intro idxs
  induction idxs with
  | nil =>
    intro children blocks ch' bl' hlim hlen hok
    unfold ri_loop at hok
    cases hok
    exact ⟨hlim, hlen⟩
  | cons i rest ih =>
    intro children blocks ch' bl' hlim hlen hok
    unfold ri_loop at hok
    split at hok
    next => exact absurd hok (by simp)
    next =>
      split at hok
      next => exact absurd hok (by simp)
      next ch1 bl1 heq =>
        obtain ⟨hlim1, hlen1⟩ := hrec _ _ _ _ _ hlim heq
        exact ih ch1 bl1 ch' bl' hlim1 hlen1 hok

/-- A successful `_get_children` descent keeps the blocks accumulator
within its ceiling. -/
theorem get_children_rec_blocks_le (h : Hive) (noCheckNk : Bool) (M : Nat) :
    ∀ fuel blkoff children blocks ch' bl',
      blocks.limit = some M →
      _get_children h noCheckNk fuel blkoff children blocks = .ok (ch', bl') →
      bl'.limit = some M ∧ bl'.list.length ≤ M := by
  intro fuel
  induction fuel with
  | zero =>
    intro blkoff children blocks ch' bl' hlim hok
    exact absurd hok (by simp [_get_children])
  | succ fuel ih =>
    intro blkoff children blocks ch' bl' hlim hok
    unfold _get_children at hok
    split at hok
    next => exact absurd hok (by simp)
    next blocks1 heqadd =>
      obtain ⟨hlim1, hlst1, hle1⟩ := addToOffsetList_ok _ _ _ heqadd
      rw [hlim] at hlim1
      have hlen1 : blocks1.list.length ≤ M := hle1 M hlim
      split at hok
      · -- lf/lh case
        split at hok
        next => exact absurd hok (by simp)
        next =>
          split at hok
          next => exact absurd hok (by simp)
          next children1 heqlf =>
            cases hok
            exact ⟨hlim1, hlen1⟩
      · split at hok
        · -- ri case
          split at hok
          next => exact absurd hok (by simp)
          next =>
            exact ri_loop_blocks_le h blkoff _ M
              (fun off ch bl ch' bl' hl ho => ih off ch bl ch' bl' hl ho)
              _ children blocks1 ch' bl' hlim1 hlen1 hok
        · exact absurd hok (by simp)

/-- **C2**: (a) a declared `nr_subkeys` above `HIVEX_MAX_SUBKEYS` makes
`_hivex_get_children` fail with the resource-limit fault `ERANGE`
before any traversal (the theorem holds for every fuel, including `0`,
so no descent step is ever taken); (b) on success the number of
intermediate blocks visited never exceeds `HIVEX_MAX_SUBKEYS`; (c) a
descent step taken when the visited-blocks accumulator has already
reached the ceiling fails with `ERANGE` rather than crashing. -/
theorem subkey_limits_enforced (h : Hive) (node : Nat) (noCheckNk : Bool)
    (fuel : Nat) :
    (validNk h node = true →
      HIVEX_MAX_SUBKEYS < h.nk_nr_subkeys node % 2 ^ 32 →
      _hivex_get_children h node noCheckNk fuel = .error .ERANGE) ∧
    (∀ cs bs, _hivex_get_children h node noCheckNk fuel = .ok (cs, bs) →
      ∃ b', bs = b' ++ [0] ∧ b'.length ≤ HIVEX_MAX_SUBKEYS) ∧
    (∀ blkoff ch bl, bl.limit = some HIVEX_MAX_SUBKEYS →
      HIVEX_MAX_SUBKEYS ≤ bl.list.length →
      _get_children h noCheckNk (fuel + 1) blkoff ch bl = .error .ERANGE) := by
  refine ⟨?_, ?_, ?_⟩
  · intro hnk hgt
    have hnz : ¬ h.nk_nr_subkeys node % 2 ^ 32 = 0 := by
      unfold HIVEX_MAX_SUBKEYS at hgt
      omega
    unfold _hivex_get_children
    rw [hnk]
    simp only [not_true_eq_false, if_false, Bool.false_eq_true]
    rw [if_neg hnz, if_pos hgt]
  · intro cs bs hok
    unfold _hivex_get_children at hok
    split at hok
    next => exact absurd hok (by simp)
    next =>
      split at hok
      next =>
        cases hok
        exact ⟨[], rfl, by simp⟩
      next =>
        split at hok
        next => exact absurd hok (by simp)
        next =>
          split at hok
          next => exact absurd hok (by simp)
          next =>
            split at hok
            next => exact absurd hok (by simp)
            next ch bl heq =>
              split at hok
              next => exact absurd hok (by simp)
              next =>
                cases hok
                obtain ⟨-, hlen⟩ :=
                  get_children_rec_blocks_le h noCheckNk HIVEX_MAX_SUBKEYS
                    fuel _ _ _ _ _ (rfl) heq
                exact ⟨bl.list, rfl, hlen⟩
  · intro blkoff ch bl hlim hlen
    unfold _get_children
    have hgt : bl.list.length + 1 > HIVEX_MAX_SUBKEYS := by omega
    have hadd : addToOffsetList bl blkoff = .error .ERANGE := by
      unfold addToOffsetList
      rw [hlim]
      exact if_pos hgt
    rw [hadd]

/-- Witness for `subkey_limits_enforced`: (a) `hiveR` declares
`HIVEX_MAX_SUBKEYS + 1` subkeys and fails with `ERANGE` at fuel `0`
(no descent possible); (b) the successful traversal on `hiveG` visited
at most the ceiling; (c) a descent whose visited-blocks accumulator is
already full fails with `ERANGE`. -/
theorem subkey_limits_enforced_witness :
    validNk hiveR 0x2000 = true ∧
    HIVEX_MAX_SUBKEYS < hiveR.nk_nr_subkeys 0x2000 % 2 ^ 32 ∧
    _hivex_get_children hiveR 0x2000 false 0 = .error .ERANGE ∧
    (∃ b', ([0x3000, 0] : List Nat) = b' ++ [0] ∧
      b'.length ≤ HIVEX_MAX_SUBKEYS) ∧
    _get_children hiveG false 1 0x3000 initOffsetList
      ⟨some HIVEX_MAX_SUBKEYS, List.replicate HIVEX_MAX_SUBKEYS 7⟩ =
      .error .ERANGE := by
  refine ⟨by decide, by decide,
    (subkey_limits_enforced hiveR 0x2000 false 0).1 (by decide) (by decide),
    ?_, ?_⟩
  · exact (subkey_limits_enforced hiveG 0x2000 false 5).2.1
      [0x4000, 0] [0x3000, 0] (by rfl)
  · exact (subkey_limits_enforced hiveG 0x2000 false 0).2.2 0x3000
      initOffsetList ⟨some HIVEX_MAX_SUBKEYS, List.replicate HIVEX_MAX_SUBKEYS 7⟩
      rfl (by simp)

/-- A handle that passed `check_child_is_nk_block` with checking
enabled: biased (hence nonzero), valid, and an `nk` block. -/
def GoodChild (h : Hive) (x : Nat) : Prop :=
  0x1000 ≤ x ∧ h.validBlock x = true ∧ isNkBlock h x = true

/-- Inversion of a successful child check (with checking enabled). -/
theorem check_child_ok (h : Hive) (child : Nat)
    (hok : check_child_is_nk_block h child false = .ok ()) :
    h.validBlock child = true ∧ isNkBlock h child = true := by
  unfold check_child_is_nk_block at hok
  rw [if_neg (by simp)] at hok
  split at hok
  next => exact absurd hok (by simp)
  next hv =>
    split at hok
    next => exact absurd hok (by simp)
    next hn =>
      simp only [Bool.not_eq_true] at hv hn
      exact ⟨by simpa using hv, by simpa using hn⟩

/-- Every element of the children accumulator after a successful
`lf_loop` with checking enabled was either already there or is a
checked child. -/
theorem lf_loop_checked (h : Hive) (blkoff : Nat) :
    ∀ idxs children ch',
      lf_loop h false blkoff idxs children = .ok ch' →
      ∀ x ∈ ch'.list, x ∈ children.list ∨ GoodChild h x := by
  intro idxs
  induction idxs with
  | nil =>
    intro children ch' hok x hx
    unfold lf_loop at hok
    cases hok
    exact Or.inl hx
  | cons i rest ih =>
    intro children ch' hok x hx
    unfold lf_loop at hok
    split at hok
    next => exact absurd hok (by simp)
    next u heqchk =>
      split at hok
      next => exact absurd hok (by simp)
      next ch1 heqadd =>
        obtain ⟨-, hlst, -⟩ := addToOffsetList_ok _ _ _ heqadd
        rcases ih ch1 ch' hok x hx with hmem | hgood
        · rw [hlst] at hmem
          rcases List.mem_append.mp hmem with hmem | hmem
          · exact Or.inl hmem
          · right
            have hxe : x = h.lf_key_offset blkoff i % 2 ^ 32 + 0x1000 := by
              simpa using hmem
            obtain ⟨hv, hn⟩ := check_child_ok h _ heqchk
            rw [hxe]
            exact ⟨by omega, hv, hn⟩
        · exact Or.inr hgood

/-- Every element of the children accumulator after a successful
`ri_loop` pass was either already there or is a checked child, provided
the recursive calls have that property. -/
theorem ri_loop_checked (h : Hive) (blkoff : Nat)
    (rec : Nat → OffsetList → OffsetList →
      Except HErrno (OffsetList × OffsetList))
    (hrec : ∀ off ch bl ch' bl', rec off ch bl = .ok (ch', bl') →
      ∀ x ∈ ch'.list, x ∈ ch.list ∨ GoodChild h x) :
    ∀ idxs children blocks ch' bl',
      ri_loop h blkoff rec idxs children blocks = .ok (ch', bl') →
      ∀ x ∈ ch'.list, x ∈ children.list ∨ GoodChild h x := by
  intro idxs
  induction idxs with
  | nil =>
    intro children blocks ch' bl' hok x hx
    unfold ri_loop at hok
    cases hok
    exact Or.inl hx
  | cons i rest ih =>
    intro children blocks ch' bl' hok x hx
    unfold ri_loop at hok
    split at hok
    next => exact absurd hok (by simp)
    next =>
      split at hok
      next => exact absurd hok (by simp)
      next ch1 bl1 heq =>
        rcases ih ch1 bl1 ch' bl' hok x hx with hmem | hgood
        · exact hrec _ _ _ _ _ heq x hmem
        · exact Or.inr hgood

/-- Every element of the children accumulator after a successful
`_get_children` descent with checking enabled was either already there
or is a checked (valid, `nk`, biased) child. -/
theorem get_children_rec_checked (h : Hive) :
    ∀ fuel blkoff children blocks ch' bl',
      _get_children h false fuel blkoff children blocks = .ok (ch', bl') →
      ∀ x ∈ ch'.list, x ∈ children.list ∨ GoodChild h x := by
  intro fuel
  induction fuel with
  | zero =>
    intro blkoff children blocks ch' bl' hok
    exact absurd hok (by simp [_get_children])
  | succ fuel ih =>
    intro blkoff children blocks ch' bl' hok
    unfold _get_children at hok
    split at hok
    next => exact absurd hok (by simp)
    next blocks1 heqadd =>
      split at hok
      · split at hok
        next => exact absurd hok (by simp)
        next =>
          split at hok
          next => exact absurd hok (by simp)
          next children1 heqlf =>
            cases hok
            exact lf_loop_checked h blkoff _ children _ heqlf
      · split at hok
        · split at hok
          next => exact absurd hok (by simp)
          next =>
            exact ri_loop_checked h blkoff _
              (fun off ch bl ch' bl' ho => ih off ch bl ch' bl' ho)
              _ children blocks1 ch' bl' hok
        · exact absurd hok (by simp)

/-- A zero-terminated list whose proper elements are nonzero is cut
exactly at the sentinel by `cstring`. -/
theorem cstring_append_sentinel (l : List Nat) (hl : ∀ x ∈ l, x ≠ 0) :
    cstring (l ++ [0]) = l := by
  induction l with
  | nil => rfl
  | cons a rest ih =>
    have ha : a ≠ 0 := hl a (by simp)
    have hrest : ∀ x ∈ rest, x ≠ 0 := fun x hx => hl x (by simp [hx])
    simp only [cstring, List.cons_append, List.takeWhile_cons]
    rw [if_pos (by simpa using ha)]
    simpa [cstring] using ih hrest

/-- A successful `_hivex_get_children` implies the node guard passed. -/
theorem get_children_ok_validNk (h : Hive) (node : Nat) (noCheckNk : Bool)
    (fuel : Nat) (r : List Nat × List Nat)
    (hok : _hivex_get_children h node noCheckNk fuel = .ok r) :
    validNk h node = true := by
  by_contra hv
  unfold _hivex_get_children at hok
  rw [if_pos hv] at hok
  exact absurd hok (by simp)

/-- Shape of a successful `_hivex_get_children` with checking enabled:
the children list is a zero-terminated list of checked children. -/
theorem get_children_elements (h : Hive) (node : Nat) (fuel : Nat)
    (cs bs : List Nat)
    (hok : _hivex_get_children h node false fuel = .ok (cs, bs)) :
    ∃ c', cs = c' ++ [0] ∧ ∀ x ∈ c', GoodChild h x := by
  unfold _hivex_get_children at hok
  split at hok
  next => exact absurd hok (by simp)
  next =>
    split at hok
    next =>
      cases hok
      exact ⟨[], rfl, by simp⟩
    next =>
      split at hok
      next => exact absurd hok (by simp)
      next =>
        split at hok
        next => exact absurd hok (by simp)
        next =>
          split at hok
          next => exact absurd hok (by simp)
          next ch bl heq =>
            split at hok
            next => exact absurd hok (by simp)
            next =>
              cases hok
              refine ⟨ch.list, rfl, ?_⟩
              intro x hx
              rcases get_children_rec_checked h fuel _ _ _ _ _ heq x hx with
                hmem | hgood
              · simp [setOffsetListLimit, initOffsetList] at hmem
              · exact hgood

/-- **C10**: on every successful `_hivex_get_children` with default
flags (child validation enabled), every enumerated child handle is a
nonzero offset referencing a valid `nk` block; hence the trailing zero
sentinel never collides with a real child, and the scan-until-zero
(`cstring`) of the returned array — which is how `hivex_node_get_child`
walks it — visits exactly the enumerated children. -/
theorem children_are_nonzero_nk (h : Hive) (node : Nat) (fuel : Nat)
    (cs bs : List Nat)
    (hok : _hivex_get_children h node false fuel = .ok (cs, bs)) :
    ∃ c', cs = c' ++ [0] ∧
      (∀ x ∈ c', x ≠ 0 ∧ h.validBlock x = true ∧ isNkBlock h x = true) ∧
      cstring cs = c' := by
  obtain ⟨c', hcs, hgood⟩ := get_children_elements h node fuel cs bs hok
  refine ⟨c', hcs, ?_, ?_⟩
  · intro x hx
    obtain ⟨hge, hv, hn⟩ := hgood x hx
    exact ⟨by omega, hv, hn⟩
  · rw [hcs]
    exact cstring_append_sentinel c' (fun x hx => by
      have := (hgood x hx).1
      omega)

/-- Witness for `children_are_nonzero_nk`: the successful enumeration
on `hiveG` yields `[0x4000, 0]`, whose sole proper element is a valid
nonzero `nk` handle. -/
theorem children_are_nonzero_nk_witness :
    _hivex_get_children hiveG 0x2000 false 5 = .ok ([0x4000, 0], [0x3000, 0]) ∧
    ∃ c', ([0x4000, 0] : List Nat) = c' ++ [0] ∧
      (∀ x ∈ c', x ≠ 0 ∧ hiveG.validBlock x = true ∧
        isNkBlock hiveG x = true) ∧
      cstring [0x4000, 0] = c' :=
  ⟨by rfl, children_are_nonzero_nk hiveG 0x2000 5 [0x4000, 0] [0x3000, 0] (by rfl)⟩

/-- Counterexample to **C9** as stated: in `hiveB` the enumeration of
node `0x2000` succeeds and returns the child `0x4000`, but that child's
on-disk parent backlink points at the unrelated valid `nk` block
`0x5000`, so `hivex_node_parent` does not return the enumerating
node — the walker never checks the backlink. -/
theorem parent_backlink_cx :
    hivex_node_children hiveB 0x2000 = some [0x4000, 0] ∧
    hivex_node_parent hiveB 0x4000 = .ok 0x5000 ∧
    hivex_node_parent hiveB 0x4000 ≠ .ok 0x2000 := by
  refine ⟨by decide, by rfl, ?_⟩
  intro hx
  rw [show hivex_node_parent hiveB 0x4000 = .ok 0x5000 from rfl] at hx
  injection hx with hx'
  exact absurd hx' (by decide)

/-- **C9 (amended)**: for every child `c` (other than the sentinel)
enumerated by `hivex_node_children` on node `n`, if `c`'s stored parent
field decodes (with the `0x1000` bias) to `n` — i.e. the hive's parent
backlinks are consistent, which the walker itself does not check —
then `hivex_node_parent c` returns `n`. -/
theorem parent_of_enumerated_child (h : Hive) (node : Nat) (cs : List Nat)
    (c : Nat)
    (hcs : hivex_node_children h node = some cs)
    (hc : c ∈ cs) (hc0 : c ≠ 0)
    (hpar : h.nk_parent c % 2 ^ 32 + 0x1000 = node) :
    hivex_node_parent h c = .ok node := by
  unfold hivex_node_children at hcs
  split at hcs
  next => exact absurd hcs (by simp)
  next ch bl heq =>
    cases hcs
    obtain ⟨c', hcseq, hgood⟩ := get_children_elements h node defaultFuel _ _ heq
    have hvalidnode : validNk h node = true :=
      get_children_ok_validNk h node false defaultFuel _ heq
    have hcmem : c ∈ c' := by
      rw [hcseq] at hc
      rcases List.mem_append.mp hc with hm | hm
      · exact hm
      · exact absurd (by simpa using hm) hc0
    obtain ⟨hge, hv, hn⟩ := hgood c hcmem
    have hvnk : validNk h c = true := by
      unfold validNk
      rw [hv, hn]
      rfl
    have hvb : h.validBlock node = true := by
      unfold validNk at hvalidnode
      exact (Bool.and_eq_true_iff.mp hvalidnode).1
    unfold hivex_node_parent
    rw [hvnk]
    simp only [not_true_eq_false, if_false, Bool.false_eq_true]
    rw [hpar, hvb]
    simp

/-- Witness for `parent_of_enumerated_child`: in `hiveG` the enumerated
child `0x4000` has a consistent backlink and `hivex_node_parent`
returns the enumerating node `0x2000`. -/
theorem parent_of_enumerated_child_witness :
    hivex_node_children hiveG 0x2000 = some [0x4000, 0] ∧
    hivex_node_parent hiveG 0x4000 = .ok 0x2000 :=
  ⟨by decide,
   parent_of_enumerated_child hiveG 0x2000 [0x4000, 0] 0x4000 (by decide)
     (by decide) (by decide) (by decide)⟩

/-- `addToOffsetList` on a limited list strictly below its ceiling. -/
theorem addToOffsetList_limited (L : Nat) (lst : List Nat) (off : Nat)
    (hlen : lst.length + 1 ≤ L) :
    addToOffsetList ⟨some L, lst⟩ off = .ok ⟨some L, lst ++ [off]⟩ := by
  have hno : ¬ (lst.length + 1 > L) := by omega
  unfold addToOffsetList
  exact if_neg hno

/-- Indexing a list through `List.range`/`getD` is just mapping it. -/
theorem range_map_getD (l : List Nat) (g : Nat → Nat) :
    (List.range l.length).map (fun i => g (l.getD i 0)) = l.map g := by
  induction l with
  | nil => rfl
  | cons a rest ih =>
    rw [List.length_cons, List.range_succ_eq_map, List.map_cons,
      List.map_map]
    refine congrArg (g a :: ·) ?_
    rw [← ih]
    exact List.map_congr_left (fun i _ => by
      simp [Function.comp, List.getD_cons_succ])

/-- Exact shape of a fully successful `lf_loop`: when every index
passes the child check and the capacity suffices, the loop appends the
biased child of every index, in order. -/
theorem lf_loop_ok_shape (h : Hive) (nc : Bool) (blk : Nat) (L : Nat) :
    ∀ (idxs : List Nat) (clist : List Nat),
      clist.length + idxs.length ≤ L →
      (∀ i ∈ idxs, check_child_is_nk_block h
        (h.lf_key_offset blk i % 2 ^ 32 + 0x1000) nc = .ok ()) →
      lf_loop h nc blk idxs ⟨some L, clist⟩ =
        .ok ⟨some L, clist ++
          idxs.map (fun i => h.lf_key_offset blk i % 2 ^ 32 + 0x1000)⟩ := by
  intro idxs
  induction idxs with
  | nil =>
    intro clist hcap hchk
    simp [lf_loop]
  | cons i rest ih =>
    intro clist hcap hchk
    unfold lf_loop
    rw [hchk i (by simp)]
    rw [addToOffsetList_limited L clist _
      (by simp only [List.length_cons] at hcap; omega)]
    have hrest := ih (clist ++ [h.lf_key_offset blk i % 2 ^ 32 + 0x1000])
      (by simp only [List.length_cons] at hcap
          simp only [List.length_append, List.length_cons, List.length_nil]
          omega)
      (fun j hj => hchk j (by simp [hj]))
    have harr : (clist ++ [h.lf_key_offset blk i % 2 ^ 32 + 0x1000]) ++
        rest.map (fun j => h.lf_key_offset blk j % 2 ^ 32 + 0x1000) =
        clist ++ (i :: rest).map
          (fun j => h.lf_key_offset blk j % 2 ^ 32 + 0x1000) := by
      simp
    rw [harr] at hrest
    exact hrest

/-- In `flatHive`, any offset other than the `lf` block passes the
child check. -/
theorem flatHive_check (l : List Nat) (x : Nat) (hx : x ≠ 0x3000) :
    check_child_is_nk_block (flatHive l) x false = .ok () := by
  unfold check_child_is_nk_block flatHive isNkBlock block_id0 block_id1
  simp [hx]

/-- In `riHive`, any offset other than the three intermediate blocks
passes the child check. -/
theorem riHive_check (l1 l2 : List Nat) (x : Nat)
    (hx3 : x ≠ 0x3000) (hx4 : x ≠ 0x4000) (hx5 : x ≠ 0x5000) :
    check_child_is_nk_block (riHive l1 l2) x false = .ok () := by
  unfold check_child_is_nk_block riHive isNkBlock block_id0 block_id1
  simp [hx3, hx4, hx5]

/-- Full evaluation of the walker on the flat one-level `lf` fixture:
the children come out in leaf order, biased, with the sentinel, and the
only intermediate block visited is the `lf` at `0x3000`. -/
theorem flatHive_children_eval (l : List Nat) (fuel : Nat)
    (hw : ∀ v ∈ l, v < 2 ^ 32 ∧ v ≠ 0x2000)
    (hlen : l.length < 2 ^ 16) (hpos : 0 < l.length) :
    _hivex_get_children (flatHive l) 0x2000 false (fuel + 1) =
      .ok (l.map (fun v => v + 0x1000) ++ [0], [0x3000, 0]) := by
  have hnr : (flatHive l).nk_nr_subkeys 0x2000 % 2 ^ 32 = l.length := by
    show (if (0x2000 : Nat) = 0x2000 then l.length else 0) % 2 ^ 32 = l.length
    rw [if_pos rfl]
    exact Nat.mod_eq_of_lt (by omega)
  have hlf : (flatHive l).lf_nr_keys 0x3000 % 2 ^ 16 = l.length := by
    show l.length % 2 ^ 16 = l.length
    exact Nat.mod_eq_of_lt hlen
  have hchecks : ∀ i ∈ List.range l.length,
      check_child_is_nk_block (flatHive l)
        ((flatHive l).lf_key_offset 0x3000 i % 2 ^ 32 + 0x1000) false =
        .ok () := by
    intro i hi
    have hi' : i < l.length := List.mem_range.mp hi
    have hmem : l.getD i 0 ∈ l := by
      rw [List.getD_eq_getElem l 0 hi']
      exact List.getElem_mem hi'
    obtain ⟨hv32, hv2⟩ := hw _ hmem
    apply flatHive_check
    show ¬ (l.getD i 0 % 2 ^ 32 + 0x1000 = 0x3000)
    rw [Nat.mod_eq_of_lt hv32]
    omega
  have hmap : (List.range l.length).map
      (fun i => (flatHive l).lf_key_offset 0x3000 i % 2 ^ 32 + 0x1000) =
      l.map (fun v => v + 0x1000) := by
    have h1eq : (List.range l.length).map
        (fun i => (flatHive l).lf_key_offset 0x3000 i % 2 ^ 32 + 0x1000) =
        (List.range l.length).map (fun i => l.getD i 0 % 2 ^ 32 + 0x1000) :=
      rfl
    have h2eq := range_map_getD l (fun v => v % 2 ^ 32 + 0x1000)
    have h3eq : l.map (fun v => v % 2 ^ 32 + 0x1000) =
        l.map (fun v => v + 0x1000) :=
      List.map_congr_left (fun v hv => by rw [Nat.mod_eq_of_lt (hw v hv).1])
    exact h1eq.trans (h2eq.trans h3eq)
  have hloop : lf_loop (flatHive l) false 0x3000 (List.range l.length)
      (setOffsetListLimit initOffsetList l.length) =
      .ok ⟨some l.length, l.map (fun v => v + 0x1000)⟩ := by
    have base := lf_loop_ok_shape (flatHive l) false 0x3000 l.length
      (List.range l.length) [] (by simp) hchecks
    rw [hmap] at base
    simpa using base
  have hgc : _get_children (flatHive l) false (fuel + 1) 0x3000
      (setOffsetListLimit initOffsetList l.length)
      (setOffsetListLimit initOffsetList HIVEX_MAX_SUBKEYS) =
      .ok (⟨some l.length, l.map (fun v => v + 0x1000)⟩,
           ⟨some HIVEX_MAX_SUBKEYS, [0x3000]⟩) := by
    unfold _get_children
    rw [show addToOffsetList (setOffsetListLimit initOffsetList
        HIVEX_MAX_SUBKEYS) 0x3000 =
        .ok ⟨some HIVEX_MAX_SUBKEYS, [0x3000]⟩ from
      addToOffsetList_limited HIVEX_MAX_SUBKEYS [] 0x3000
        (by norm_num [HIVEX_MAX_SUBKEYS])]
    simp only []
    rw [if_pos (show block_id0 (flatHive l) 0x3000 = 108 ∧
        (block_id1 (flatHive l) 0x3000 = 102 ∨
         block_id1 (flatHive l) 0x3000 = 104) from ⟨rfl, Or.inl rfl⟩)]
    rw [hlf]
    rw [if_neg (show ¬ 8 + l.length * 8 > (flatHive l).blockLen 0x3000 from by
      show ¬ 8 + l.length * 8 > 2 ^ 32
      have h32 : (2 : Nat) ^ 32 = 4294967296 := by norm_num
      omega)]
    rw [hloop]
  rw [_hivex_get_children]
  rw [show validNk (flatHive l) 0x2000 = true from rfl]
  simp only [not_true_eq_false, if_false, Bool.false_eq_true]
  rw [hnr]
  rw [if_neg (by omega)]
  rw [if_neg (show ¬ l.length > HIVEX_MAX_SUBKEYS from by
    unfold HIVEX_MAX_SUBKEYS
    omega)]
  rw [show (flatHive l).validBlock
      ((flatHive l).nk_subkey_lf 0x2000 % 2 ^ 32 + 0x1000) = true from rfl]
  simp only [not_true_eq_false, if_false, Bool.true_eq_false]
  rw [show (flatHive l).nk_subkey_lf 0x2000 % 2 ^ 32 + 0x1000 = 0x3000
    from rfl]
  simp only [hgc]
  rw [if_neg (show ¬ l.length ≠ offsetListLength
      ⟨some l.length, l.map (fun v => v + 0x1000)⟩ from by
    simp [offsetListLength])]
  rfl

/-- One-step unfolding of `_get_children` at positive fuel. -/
theorem ri_loop_cons_eq (h : Hive) (blkoff : Nat)
    (rec : Nat → OffsetList → OffsetList →
      Except HErrno (OffsetList × OffsetList))
    (i : Nat) (rest : List Nat) (children blocks : OffsetList) :
    ri_loop h blkoff rec (i :: rest) children blocks =
      (if ¬ h.validBlock (h.ri_offset blkoff i % 2 ^ 32 + 0x1000) then
        .error .EFAULT
      else
        match rec (h.ri_offset blkoff i % 2 ^ 32 + 0x1000) children blocks with
        | .error e => .error e
        | .ok (children, blocks) =>
          ri_loop h blkoff rec rest children blocks) := rfl

/-- `ri_loop` on the empty index list. -/
theorem ri_loop_nil_eq (h : Hive) (blkoff : Nat)
    (rec : Nat → OffsetList → OffsetList →
      Except HErrno (OffsetList × OffsetList))
    (children blocks : OffsetList) :
    ri_loop h blkoff rec [] children blocks = .ok (children, blocks) := rfl

/-- Full evaluation of the walker on the two-level `ri → lf, lf`
fixture: the children are the leaves of the two `lf` blocks in leaf
order, biased, with the sentinel; the intermediate blocks visited are
the `ri` and the two `lf` blocks, in traversal order. -/
theorem riHive_children_eval (l1 l2 : List Nat) (fuel : Nat)
    (hw : ∀ v ∈ l1 ++ l2, v < 2 ^ 32 ∧ v ≠ 0x2000 ∧ v ≠ 0x3000 ∧ v ≠ 0x4000)
    (h1 : l1.length < 2 ^ 16) (h2 : l2.length < 2 ^ 16)
    (hpos : 0 < l1.length + l2.length) :
    _hivex_get_children (riHive l1 l2) 0x2000 false (fuel + 2) =
      .ok ((l1 ++ l2).map (fun v => v + 0x1000) ++ [0],
           [0x3000, 0x4000, 0x5000, 0]) := by
  have hnr : (riHive l1 l2).nk_nr_subkeys 0x2000 % 2 ^ 32 =
      l1.length + l2.length := by
    show (if (0x2000 : Nat) = 0x2000 then l1.length + l2.length else 0) %
      2 ^ 32 = l1.length + l2.length
    rw [if_pos rfl]
    exact Nat.mod_eq_of_lt (by omega)
  have hchk1 : ∀ i ∈ List.range l1.length,
      check_child_is_nk_block (riHive l1 l2)
        ((riHive l1 l2).lf_key_offset 0x4000 i % 2 ^ 32 + 0x1000) false =
        .ok () := by
    intro i hi
    have hi' : i < l1.length := List.mem_range.mp hi
    have hmem : l1.getD i 0 ∈ l1 ++ l2 := by
      rw [List.getD_eq_getElem l1 0 hi']
      exact List.mem_append_left l2 (List.getElem_mem hi')
    obtain ⟨hv32, hv2, hv3, hv4⟩ := hw _ hmem
    apply riHive_check <;>
      (show ¬ (l1.getD i 0 % 2 ^ 32 + 0x1000 = _)
       rw [Nat.mod_eq_of_lt hv32]
       omega)
  have hchk2 : ∀ i ∈ List.range l2.length,
      check_child_is_nk_block (riHive l1 l2)
        ((riHive l1 l2).lf_key_offset 0x5000 i % 2 ^ 32 + 0x1000) false =
        .ok () := by
    intro i hi
    have hi' : i < l2.length := List.mem_range.mp hi
    have hmem : l2.getD i 0 ∈ l1 ++ l2 := by
      rw [List.getD_eq_getElem l2 0 hi']
      exact List.mem_append_right l1 (List.getElem_mem hi')
    obtain ⟨hv32, hv2, hv3, hv4⟩ := hw _ hmem
    apply riHive_check <;>
      (show ¬ (l2.getD i 0 % 2 ^ 32 + 0x1000 = _)
       rw [Nat.mod_eq_of_lt hv32]
       omega)
  have hmap1 : (List.range l1.length).map
      (fun i => (riHive l1 l2).lf_key_offset 0x4000 i % 2 ^ 32 + 0x1000) =
      l1.map (fun v => v + 0x1000) := by
    have h1eq : (List.range l1.length).map
        (fun i => (riHive l1 l2).lf_key_offset 0x4000 i % 2 ^ 32 + 0x1000) =
        (List.range l1.length).map (fun i => l1.getD i 0 % 2 ^ 32 + 0x1000) :=
      rfl
    have h2eq := range_map_getD l1 (fun v => v % 2 ^ 32 + 0x1000)
    have h3eq : l1.map (fun v => v % 2 ^ 32 + 0x1000) =
        l1.map (fun v => v + 0x1000) :=
      List.map_congr_left (fun v hv => by
        rw [Nat.mod_eq_of_lt (hw v (List.mem_append_left l2 hv)).1])
    exact h1eq.trans (h2eq.trans h3eq)
  have hmap2 : (List.range l2.length).map
      (fun i => (riHive l1 l2).lf_key_offset 0x5000 i % 2 ^ 32 + 0x1000) =
      l2.map (fun v => v + 0x1000) := by
    have h1eq : (List.range l2.length).map
        (fun i => (riHive l1 l2).lf_key_offset 0x5000 i % 2 ^ 32 + 0x1000) =
        (List.range l2.length).map (fun i => l2.getD i 0 % 2 ^ 32 + 0x1000) :=
      rfl
    have h2eq := range_map_getD l2 (fun v => v % 2 ^ 32 + 0x1000)
    have h3eq : l2.map (fun v => v % 2 ^ 32 + 0x1000) =
        l2.map (fun v => v + 0x1000) :=
      List.map_congr_left (fun v hv => by
        rw [Nat.mod_eq_of_lt (hw v (List.mem_append_right l1 hv)).1])
    exact h1eq.trans (h2eq.trans h3eq)
  have hloop1 : lf_loop (riHive l1 l2) false 0x4000 (List.range l1.length)
      (setOffsetListLimit initOffsetList (l1.length + l2.length)) =
      .ok ⟨some (l1.length + l2.length), l1.map (fun v => v + 0x1000)⟩ := by
    have base := lf_loop_ok_shape (riHive l1 l2) false 0x4000
      (l1.length + l2.length) (List.range l1.length) []
      (by simp) hchk1
    rw [hmap1] at base
    simpa using base
  have hloop2 : lf_loop (riHive l1 l2) false 0x5000 (List.range l2.length)
      ⟨some (l1.length + l2.length), l1.map (fun v => v + 0x1000)⟩ =
      .ok ⟨some (l1.length + l2.length),
        l1.map (fun v => v + 0x1000) ++ l2.map (fun v => v + 0x1000)⟩ := by
    have base := lf_loop_ok_shape (riHive l1 l2) false 0x5000
      (l1.length + l2.length) (List.range l2.length)
      (l1.map (fun v => v + 0x1000))
      (by simp) hchk2
    rw [hmap2] at base
    exact base
  have hlf1 : (riHive l1 l2).lf_nr_keys 0x4000 % 2 ^ 16 = l1.length := by
    show (if (0x4000 : Nat) = 0x4000 then l1.length else l2.length) % 2 ^ 16 =
      l1.length
    rw [if_pos rfl]
    exact Nat.mod_eq_of_lt h1
  have hlf2 : (riHive l1 l2).lf_nr_keys 0x5000 % 2 ^ 16 = l2.length := by
    show (if (0x5000 : Nat) = 0x4000 then l1.length else l2.length) % 2 ^ 16 =
      l2.length
    rw [if_neg (by decide)]
    exact Nat.mod_eq_of_lt h2
  have h32 : (2 : Nat) ^ 32 = 4294967296 := by norm_num
  have hrec1 : _get_children (riHive l1 l2) false (fuel + 1) 0x4000
      (setOffsetListLimit initOffsetList (l1.length + l2.length))
      ⟨some HIVEX_MAX_SUBKEYS, [0x3000]⟩ =
      .ok (⟨some (l1.length + l2.length), l1.map (fun v => v + 0x1000)⟩,
           ⟨some HIVEX_MAX_SUBKEYS, [0x3000, 0x4000]⟩) := by
    unfold _get_children
    rw [show addToOffsetList
        (⟨some HIVEX_MAX_SUBKEYS, [0x3000]⟩ : OffsetList) 0x4000 =
        .ok ⟨some HIVEX_MAX_SUBKEYS, [0x3000, 0x4000]⟩ from
      addToOffsetList_limited HIVEX_MAX_SUBKEYS [0x3000] 0x4000
        (by norm_num [HIVEX_MAX_SUBKEYS])]
    simp only []
    rw [if_pos (show block_id0 (riHive l1 l2) 0x4000 = 108 ∧
        (block_id1 (riHive l1 l2) 0x4000 = 102 ∨
         block_id1 (riHive l1 l2) 0x4000 = 104) from ⟨rfl, Or.inl rfl⟩)]
    rw [hlf1]
    rw [if_neg (show ¬ 8 + l1.length * 8 > (riHive l1 l2).blockLen 0x4000
      from by
        show ¬ 8 + l1.length * 8 > 2 ^ 32
        omega)]
    rw [hloop1]
  have hrec2 : _get_children (riHive l1 l2) false (fuel + 1) 0x5000
      (⟨some (l1.length + l2.length),
        l1.map (fun v => v + 0x1000)⟩ : OffsetList)
      ⟨some HIVEX_MAX_SUBKEYS, [0x3000, 0x4000]⟩ =
      .ok (⟨some (l1.length + l2.length),
            l1.map (fun v => v + 0x1000) ++ l2.map (fun v => v + 0x1000)⟩,
           ⟨some HIVEX_MAX_SUBKEYS, [0x3000, 0x4000, 0x5000]⟩) := by
    unfold _get_children
    rw [show addToOffsetList
        (⟨some HIVEX_MAX_SUBKEYS, [0x3000, 0x4000]⟩ : OffsetList) 0x5000 =
        .ok ⟨some HIVEX_MAX_SUBKEYS, [0x3000, 0x4000, 0x5000]⟩ from
      addToOffsetList_limited HIVEX_MAX_SUBKEYS [0x3000, 0x4000] 0x5000
        (by norm_num [HIVEX_MAX_SUBKEYS])]
    simp only []
    rw [if_pos (show block_id0 (riHive l1 l2) 0x5000 = 108 ∧
        (block_id1 (riHive l1 l2) 0x5000 = 102 ∨
         block_id1 (riHive l1 l2) 0x5000 = 104) from ⟨rfl, Or.inl rfl⟩)]
    rw [hlf2]
    rw [if_neg (show ¬ 8 + l2.length * 8 > (riHive l1 l2).blockLen 0x5000
      from by
        show ¬ 8 + l2.length * 8 > 2 ^ 32
        omega)]
    rw [hloop2]
  have hgc : _get_children (riHive l1 l2) false (fuel + 1 + 1) 0x3000
      (setOffsetListLimit initOffsetList (l1.length + l2.length))
      (setOffsetListLimit initOffsetList HIVEX_MAX_SUBKEYS) =
      .ok (⟨some (l1.length + l2.length),
            l1.map (fun v => v + 0x1000) ++ l2.map (fun v => v + 0x1000)⟩,
           ⟨some HIVEX_MAX_SUBKEYS, [0x3000, 0x4000, 0x5000]⟩) := by
    unfold _get_children
    rw [show addToOffsetList (setOffsetListLimit initOffsetList
        HIVEX_MAX_SUBKEYS) 0x3000 =
        .ok ⟨some HIVEX_MAX_SUBKEYS, [0x3000]⟩ from
      addToOffsetList_limited HIVEX_MAX_SUBKEYS [] 0x3000
        (by norm_num [HIVEX_MAX_SUBKEYS])]
    simp only []
    rw [if_neg (show ¬ (block_id0 (riHive l1 l2) 0x3000 = 108 ∧
        (block_id1 (riHive l1 l2) 0x3000 = 102 ∨
         block_id1 (riHive l1 l2) 0x3000 = 104)) from by
      intro hcon
      have hv : block_id0 (riHive l1 l2) 0x3000 = 114 := rfl
      rw [hv] at hcon
      exact absurd hcon.1 (by decide))]
    rw [if_pos (show block_id0 (riHive l1 l2) 0x3000 = 114 ∧
        block_id1 (riHive l1 l2) 0x3000 = 105 from ⟨rfl, rfl⟩)]
    rw [show (riHive l1 l2).ri_nr_offsets 0x3000 % 2 ^ 16 = 2 from rfl]
    rw [if_neg (show ¬ 8 + 2 * 4 > (riHive l1 l2).blockLen 0x3000 from by
      show ¬ 8 + 2 * 4 > 2 ^ 32
      omega)]
    rw [show List.range 2 = [0, 1] from rfl]
    rw [ri_loop_cons_eq]
    rw [show (riHive l1 l2).ri_offset 0x3000 0 % 2 ^ 32 + 0x1000 = 0x4000
      from rfl]
    rw [if_neg (show ¬ ¬ (riHive l1 l2).validBlock 0x4000 = true from
      fun hn => hn rfl)]
    rw [hrec1]
    simp only []
    rw [ri_loop_cons_eq]
    rw [show (riHive l1 l2).ri_offset 0x3000 1 % 2 ^ 32 + 0x1000 = 0x5000
      from rfl]
    rw [if_neg (show ¬ ¬ (riHive l1 l2).validBlock 0x5000 = true from
      fun hn => hn rfl)]
    rw [hrec2]
    rfl
  rw [show fuel + 2 = fuel + 1 + 1 from rfl]
  rw [_hivex_get_children]
  rw [show validNk (riHive l1 l2) 0x2000 = true from rfl]
  simp only [not_true_eq_false, if_false, Bool.false_eq_true]
  rw [hnr]
  rw [if_neg (by omega)]
  rw [if_neg (show ¬ l1.length + l2.length > HIVEX_MAX_SUBKEYS from by
    unfold HIVEX_MAX_SUBKEYS
    omega)]
  rw [show (riHive l1 l2).validBlock
      ((riHive l1 l2).nk_subkey_lf 0x2000 % 2 ^ 32 + 0x1000) = true from rfl]
  simp only [not_true_eq_false, if_false, Bool.true_eq_false]
  rw [show (riHive l1 l2).nk_subkey_lf 0x2000 % 2 ^ 32 + 0x1000 = 0x3000
    from rfl]
  simp only [hgc]
  rw [if_neg (show ¬ l1.length + l2.length ≠ offsetListLength
      ⟨some (l1.length + l2.length),
        l1.map (fun v => v + 0x1000) ++ l2.map (fun v => v + 0x1000)⟩ from by
    simp [offsetListLength])]
  rw [show (l1 ++ l2).map (fun v => v + 0x1000) =
    l1.map (fun v => v + 0x1000) ++ l2.map (fun v => v + 0x1000)
    from List.map_append _ l1 l2]
  rfl

/-- **C8**: a key whose subkey structure is a two-level `ri` block
fanning out to two `lf` leaf blocks holding the stored child offsets
`l1` and `l2` enumerates exactly the N = |l1| + |l2| leaf children, in
leaf order, and the resulting children list is identical to that of the
equivalent flat one-level `lf` fixture holding the same N leaves in the
same order; only the visited-blocks lists differ (three intermediate
blocks versus one). -/
theorem ri_two_level_equals_flat (l1 l2 : List Nat) (fuel : Nat)
    (hw : ∀ v ∈ l1 ++ l2, v < 2 ^ 32 ∧ v ≠ 0x2000 ∧ v ≠ 0x3000 ∧ v ≠ 0x4000)
    (h1 : l1.length < 2 ^ 16) (h2 : l2.length < 2 ^ 16)
    (hsum : l1.length + l2.length < 2 ^ 16)
    (hpos : 0 < l1.length + l2.length) :
    _hivex_get_children (riHive l1 l2) 0x2000 false (fuel + 2) =
      .ok ((l1 ++ l2).map (fun v => v + 0x1000) ++ [0],
           [0x3000, 0x4000, 0x5000, 0]) ∧
    _hivex_get_children (flatHive (l1 ++ l2)) 0x2000 false (fuel + 1) =
      .ok ((l1 ++ l2).map (fun v => v + 0x1000) ++ [0], [0x3000, 0]) ∧
    (_hivex_get_children (riHive l1 l2) 0x2000 false (fuel + 2)).map
        Prod.fst =
      (_hivex_get_children (flatHive (l1 ++ l2)) 0x2000 false
        (fuel + 1)).map Prod.fst := by
  have hri := riHive_children_eval l1 l2 fuel hw h1 h2 hpos
  have hflat := flatHive_children_eval (l1 ++ l2) fuel
    (fun v hv => ⟨(hw v hv).1, (hw v hv).2.1⟩)
    (by simp only [List.length_append]; omega)
    (by simp only [List.length_append]; omega)
  refine ⟨hri, hflat, ?_⟩
  rw [hri, hflat]
  rfl

/-- Witness for `ri_two_level_equals_flat`: three children stored as
`[0x10000, 0x10001]` and `[0x10002]` behind an `ri` block enumerate to
the same children list as the flat `lf` holding all three. -/
theorem ri_two_level_equals_flat_witness :
    _hivex_get_children (riHive [0x10000, 0x10001] [0x10002]) 0x2000
      false 2 =
      .ok ([0x11000, 0x11001, 0x11002, 0], [0x3000, 0x4000, 0x5000, 0]) ∧
    _hivex_get_children (flatHive [0x10000, 0x10001, 0x10002]) 0x2000
      false 1 =
      .ok ([0x11000, 0x11001, 0x11002, 0], [0x3000, 0]) := by
  have h := ri_two_level_equals_flat [0x10000, 0x10001] [0x10002] 0
    (by decide) (by decide) (by decide) (by decide) (by decide)
  exact ⟨h.1, h.2.1⟩
